import Mathlib

/-!
Verification of the gastown formula subsystem (the `formula` command file).

Strings are modelled as `List Char`; Go's byte-based indexing and `len`
coincide with character indexing on ASCII content.  Go standard-library
string helpers (`strings.Split`, `strings.SplitN`, `strings.Index`,
`strings.TrimSpace`, `strings.Trim`, `strings.ToLower`) are modelled by
the executable functions below; `strings.Index`-plus-slicing is expressed
through `splitOnL` (the text before the first occurrence of a pattern is
the head of the split, the text after it is the remaining parts re-joined
with the pattern).
-/

namespace Gastown

/-- The ASCII characters Go's `strings.TrimSpace` removes (`unicode.IsSpace`
restricted to ASCII: space, tab, newline, vertical tab, form feed, carriage
return). -/
def isSpaceChar (c : Char) : Bool :=
  c = ' ' || c = '\t' || c = '\n' || c = Char.ofNat 11 || c = Char.ofNat 12 || c = '\r'

/-- Go `strings.TrimSpace`: drop whitespace from both ends. -/
def trimSpace (s : List Char) : List Char :=
  ((s.dropWhile isSpaceChar).reverse.dropWhile isSpaceChar).reverse

/-- Go `strings.Trim(s, cutset)`: drop characters of `cutset` from both ends. -/
def trimSet (s : List Char) (cutset : List Char) : List Char :=
  ((s.dropWhile (cutset.contains ·)).reverse.dropWhile (cutset.contains ·)).reverse

/-- Worker for `splitOnL`.  `fuel` only bounds the recursion; it always
exceeds the remaining input's length on the inputs `splitOnL` passes, so the
`0` branch is never reached there. -/
def splitOnAux (sep : List Char) : Nat → List Char → List Char → List (List Char)
  | _, acc, [] => [acc.reverse]
  | 0, acc, rest => [acc.reverse ++ rest]
  | fuel + 1, acc, c :: rest =>
    if sep.isPrefixOf (c :: rest) then
      acc.reverse :: splitOnAux sep fuel [] ((c :: rest).drop sep.length)
    else
      splitOnAux sep fuel (c :: acc) rest

/-- Go `strings.Split(s, sep)` for a non-empty separator: split around the
leftmost-first, non-overlapping occurrences of `sep`.  The modelled code never
splits on an empty separator. -/
def splitOnL (sep s : List Char) : List (List Char) :=
  if sep.isEmpty then [s] else splitOnAux sep (s.length + 1) [] s

/-- Go `strings.SplitN(s, sep, 2)`: the text before the first occurrence of
`sep` and everything after it. -/
def splitN2 (sep s : List Char) : List (List Char) :=
  match splitOnL sep s with
  | [] => [s]
  | [x] => [x]
  | x :: rest => [x, List.intercalate sep rest]

/-- The single-quote character (written by code point to keep quote characters
out of character literals). -/
def squote : Char := Char.ofNat 39

/-- The quote-stripping step of Go `extractTOMLValue`: when the value starts
with a double or single quote (and has at least two characters), drop the
first and last character — the original checks only the first character. -/
def stripOneQuoteLayer (val : List Char) : List Char :=
  if 2 ≤ val.length ∧ (val.headD ' ' = '"' ∨ val.headD ' ' = squote) then
    (val.drop 1).dropLast
  else val

/-- Go `extractTOMLValue`: scan the lines for the first `key = value` or
`key=value` assignment (on the whitespace-trimmed line), split at the first
`=`, trim the right-hand side and strip one quote layer; the empty string
when no line matches. -/
def extractTOMLValue (content key : List Char) : List Char :=
  ((splitOnL ['\n'] content).findSome? fun line =>
    let t := trimSpace line
    if (key ++ " =".toList).isPrefixOf t || (key ++ "=".toList).isPrefixOf t then
      match splitN2 ['='] t with
      | [_, v] => some (stripOneQuoteLayer (trimSpace v))
      | _ => none
    else none).getD []

/-- Go `extractTOMLMultiline`: find `key = """`, return the (trimmed) text up
to the closing `"""`; fall back to `extractTOMLValue` when the opener is
absent and to the empty string when the closer is absent. -/
def extractTOMLMultiline (content key : List Char) : List Char :=
  let pat := key ++ " = \"\"\"".toList
  match splitOnL pat content with
  | [] => extractTOMLValue content key
  | [_] => extractTOMLValue content key
  | _ :: tail =>
    match splitOnL "\"\"\"".toList (List.intercalate pat tail) with
    | [] => []
    | [_] => []
    | pre :: _ => trimSpace pre

/-- The section-bounding shape shared by Go `extractSynthesis`,
`extractPrompts` and `extractOutput`: the text from the first occurrence of
`marker` up to (excluding) the next `"\n["` header, or to the end of the
text; `none` when `marker` does not occur.  In the original this is
`strings.Index(content, marker)` followed by
`section = section[:endIdx+1]` with `endIdx = strings.Index(section[1:], "\n[")`. -/
def boundedSection (marker content : List Char) : Option (List Char) :=
  match splitOnL marker content with
  | [] => none
  | [_] => none
  | _ :: tail =>
    let sec := marker ++ List.intercalate marker tail
    match splitOnL "\n[".toList (sec.drop 1) with
    | p :: _ :: _ => some (sec.take (p.length + 1))
    | _ => some sec

/-- Go `formulaLeg`. -/
structure formulaLeg where
  ID : List Char
  Title : List Char
  Focus : List Char
  Description : List Char
deriving DecidableEq, Repr

/-- Go `formulaSynthesis`. -/
structure formulaSynthesis where
  Title : List Char
  Description : List Char
  DependsOn : List (List Char)
deriving DecidableEq, Repr

/-- Go `formulaOutput`. -/
structure formulaOutput where
  Directory : List Char
  LegPattern : List Char
  Synthesis : List Char
deriving DecidableEq, Repr

/-- Go `formulaData`.  The Go `Prompts` map only ever holds the key `"base"`,
so it is modelled as the optional value at that key; `Type` is renamed
`FType` (keyword clash). -/
structure formulaData where
  Name : List Char
  Description : List Char
  FType : List Char
  Legs : List formulaLeg
  Synthesis : Option formulaSynthesis
  PromptsBase : Option (List Char)
  Output : Option formulaOutput
deriving DecidableEq, Repr

/-- Go `extractLegs`: split on `[[legs]]`, skip the text before the first
marker, truncate each block at the next `[[`, extract the four leg fields,
and keep only the blocks whose `id` is non-empty. -/
def extractLegs (content : List Char) : List formulaLeg :=
  ((splitOnL "[[legs]]".toList content).drop 1).filterMap fun s =>
    let bounded := (splitOnL "[[".toList s).headD []
    let leg : formulaLeg :=
      { ID := extractTOMLValue bounded "id".toList
        Title := extractTOMLValue bounded "title".toList
        Focus := extractTOMLValue bounded "focus".toList
        Description := extractTOMLMultiline bounded "description".toList }
    if leg.ID ≠ [] then some leg else none

/-- The `depends_on` parsing step of Go `extractSynthesis`: trim surrounding
brackets, split on commas, trim whitespace and quotes from each entry, and
drop empty entries. -/
def parseDependsOn (sec : List Char) : List (List Char) :=
  let depsLine := extractTOMLValue sec "depends_on".toList
  if depsLine = [] then []
  else
    (splitOnL [','] (trimSet depsLine ['[', ']'])).filterMap fun dep =>
      let d := trimSet (trimSpace dep) ['"', squote]
      if d = [] then none else some d

/-- Go `extractSynthesis`: bound the `[synthesis]` section, extract
`title`, `description` and `depends_on`, and return `none` when both the
title and the description are empty. -/
def extractSynthesis (content : List Char) : Option formulaSynthesis :=
  match boundedSection "[synthesis]".toList content with
  | none => none
  | some sec =>
    let syn : formulaSynthesis :=
      { Title := extractTOMLValue sec "title".toList
        Description := extractTOMLMultiline sec "description".toList
        DependsOn := parseDependsOn sec }
    if syn.Title = [] ∧ syn.Description = [] then none else some syn

/-- Go `extractPrompts`: bound the `[prompts]` section and extract the
triple-quoted `base` prompt; the result is the `"base"` entry of the returned
map (absent when the section is absent or the field is empty). -/
def extractPrompts (content : List Char) : Option (List Char) :=
  match boundedSection "[prompts]".toList content with
  | none => none
  | some sec =>
    let base := extractTOMLMultiline sec "base".toList
    if base = [] then none else some base

/-- Go `extractOutput`: bound the `[output]` section, extract the three
fields, and return `none` when all three are empty. -/
def extractOutput (content : List Char) : Option formulaOutput :=
  match boundedSection "[output]".toList content with
  | none => none
  | some sec =>
    let out : formulaOutput :=
      { Directory := extractTOMLValue sec "directory".toList
        LegPattern := extractTOMLValue sec "leg_pattern".toList
        Synthesis := extractTOMLValue sec "synthesis".toList }
    if out.Directory = [] ∧ out.LegPattern = [] ∧ out.Synthesis = [] then none
    else some out

/-- The document built by Go `parseFormulaContent` (field assignments `f.X =
match` guarded by `match != ""` on a zero-valued field equal direct
assignment). -/
def parseFormulaDoc (data : List Char) : formulaData :=
  { Name := extractTOMLValue data "formula".toList
    Description := extractTOMLMultiline data "description".toList
    FType := extractTOMLValue data "type".toList
    Legs := extractLegs data
    Synthesis := extractSynthesis data
    PromptsBase := extractPrompts data
    Output := extractOutput data }

/-- Go `parseFormulaContent`: builds the document and returns a nil error on
every input (no code path of the function produces an error). -/
def parseFormulaContent (data : List Char) : Except (List Char) formulaData :=
  .ok (parseFormulaDoc data)

/-! ## Resolver (`findFormulaWithSource`) -/

/-- Go `FormulaSource`. -/
inductive FormulaSource where
  | file
  | embedded
deriving DecidableEq, Repr

/-- Go `FormulaLocation`. -/
structure FormulaLocation where
  Path : List Char
  Source : FormulaSource
deriving DecidableEq, Repr

/-- Go `FormulaLocation.IsEmbedded`. -/
def FormulaLocation.IsEmbedded (f : FormulaLocation) : Bool :=
  f.Source = FormulaSource.embedded

/-- The ambient state `findFormulaWithSource` reads: the working directory
(`os.Getwd`, `none` on error), the town root (`workspace.FindFromCwd`,
`none` on error), which paths exist on disk (`os.Stat` succeeding), and the
set of embedded formula names (`formula.EmbeddedFormulaExists`). -/
structure ResolveEnv where
  cwd : Option (List Char)
  townRoot : Option (List Char)
  fileExists : List Char → Bool
  embeddedNames : List (List Char)

/-- `filepath.Join` on slash-free components, as used in the modelled code. -/
def joinPath (base name : List Char) : List Char :=
  base ++ '/' :: name

/-- The `searchPaths` slice built by Go `findFormulaWithSource`: the rig-level
`<cwd>/.beads/formulas` when the working directory is known, then the
town-level `<townRoot>/.beads/formulas` when the town root is known. -/
def searchPaths (env : ResolveEnv) : List (List Char) :=
  (match env.cwd with
   | some c => [joinPath c ".beads/formulas".toList]
   | none => []) ++
  (match env.townRoot with
   | some t => [joinPath t ".beads/formulas".toList]
   | none => [])

/-- The extension list Go `findFormulaWithSource` tries, in order. -/
def formulaExtensions : List (List Char) :=
  [".formula.toml".toList, ".formula.json".toList]

/-- The candidate files Go `findFormulaWithSource` probes, in probe order
(outer loop over search paths, inner loop over extensions). -/
def formulaCandidates (env : ResolveEnv) (name : List Char) : List (List Char) :=
  (searchPaths env).flatMap fun base =>
    formulaExtensions.map fun ext => joinPath base (name ++ ext)

/-- Go `findFormulaWithSource`: the first existing candidate file wins as a
file-sourced location; otherwise the embedded set is consulted; otherwise a
not-found error. -/
def findFormulaWithSource (env : ResolveEnv) (name : List Char) :
    Except (List Char) FormulaLocation :=
  match (formulaCandidates env name).find? env.fileExists with
  | some p => .ok { Path := p, Source := .file }
  | none =>
    if name ∈ env.embeddedNames then .ok { Path := name, Source := .embedded }
    else .error ("formula not found in search paths or embedded".toList)

/-! ## Convoy executor (`executeConvoyFormula`) -/

/-- The convoy title computed at the start of Go `executeConvoyFormula`:
`fmt.Sprintf("%s: %s", formulaName, f.Description)` truncated to
`[:77] + "..."` when longer than 80. -/
def convoyTitle (formulaName desc : List Char) : List Char :=
  let t := formulaName ++ ": ".toList ++ desc
  if 80 < t.length then t.take 77 ++ "...".toList else t

/-- Go map assignment `m[k] = v`: replace the value at an existing key,
otherwise add the binding. -/
def mapUpsert (m : List (List Char × List Char)) (k v : List Char) :
    List (List Char × List Char) :=
  if m.any (fun kv => kv.1 == k) then
    m.map fun kv => if kv.1 == k then (k, v) else kv
  else m ++ [(k, v)]

/-- The `legBeads` map after step 2 of Go `executeConvoyFormula`: each leg in
order gets a fresh bead id (`legBeadId i` for the i-th leg); when its `bd
create` fails (`legOk i = false`) the leg is skipped, otherwise
`legBeads[leg.ID] = legBeadID`. -/
def legBeadsAfter (legs : List formulaLeg) (legOk : Nat → Bool)
    (legBeadId : Nat → List Char) : List (List Char × List Char) :=
  legs.enum.foldl
    (fun m p => if legOk p.1 then mapUpsert m p.2.ID (legBeadId p.1) else m) []

/-- The bead ids of the leg records whose creation succeeded, one per
successful `bd create`, in creation order. -/
def successfulLegBeadIds (legs : List formulaLeg) (legOk : Nat → Bool)
    (legBeadId : Nat → List Char) : List (List Char) :=
  legs.enum.filterMap fun p => if legOk p.1 then some (legBeadId p.1) else none

/-- The dependency edges added from the synthesis record in step 3 of Go
`executeConvoyFormula`: when the document declares a synthesis and its `bd
create` succeeds (`synOk`), one `bd dep add synthesisBeadID legBeadID` per
entry of the `legBeads` map; otherwise none. -/
def synthesisDepTargets (f : formulaData) (legOk : Nat → Bool)
    (legBeadId : Nat → List Char) (synOk : Bool) : List (List Char) :=
  match f.Synthesis with
  | none => []
  | some _ =>
    if synOk then (legBeadsAfter f.Legs legOk legBeadId).map Prod.snd else []

/-! ## Line diff (`findLineDifferences`) -/

/-- Go `LineDiff.Type`. -/
inductive DiffKind where
  | changed
  | added
  | removed
deriving DecidableEq, Repr

/-- Go `LineDiff` (absent sides keep the zero value, the empty string). -/
structure LineDiff where
  Kind : DiffKind
  Left : List Char
  Right : List Char
deriving DecidableEq, Repr

/-- Go's per-side line lookup in `findLineDifferences`: the line at index
`i`, or the empty string (the zero value) past the end of the list. -/
def lineAtD (xs : List (List Char)) (i : Nat) : List Char := xs.getD i []

/-- Go `findLineDifferences`: walk indices `0 ..= max len - 1`, substituting
the empty string for a missing line (`lineAtD`); skip trim-equal pairs;
report `added` past the left end, `removed` past the right end, `changed`
otherwise. -/
def findLineDifferences (left right : List (List Char)) : List LineDiff :=
  (List.range (max left.length right.length)).foldl
    (fun diffs i =>
      if trimSpace (lineAtD left i) = trimSpace (lineAtD right i) then diffs
      else if trimSpace (lineAtD left i) = [] ∧ trimSpace (lineAtD right i) = [] then diffs
      else if left.length ≤ i then diffs ++ [⟨.added, [], lineAtD right i⟩]
      else if right.length ≤ i then diffs ++ [⟨.removed, lineAtD left i, []⟩]
      else diffs ++ [⟨.changed, lineAtD left i, lineAtD right i⟩])
    []

/-! ## Reset (`runFormulaReset`) -/

/-- The outcomes of Go `runFormulaReset`. -/
inductive ResetOutcome where
  | removed
  | errBothExist
  | errNoOverride
deriving DecidableEq, Repr

/-- The ambient state `runFormulaReset` reads. -/
structure ResetEnv where
  townRoot : List Char
  rigDirs : List (List Char)
  fileExists : List Char → Bool

/-- The override file path for `filename` under a directory's
`.beads/formulas`. -/
def overridePathIn (dir filename : List Char) : List Char :=
  joinPath (joinPath dir ".beads/formulas".toList) filename

/-- Go `runFormulaReset` without `--rig`: the target is the town-level
override; if some rig also holds an override while the town one exists, the
operation refuses (disambiguation error) and deletes nothing; a missing
target is an error; otherwise the town override is removed.  The result pairs
the outcome with the filesystem after the call. -/
def runFormulaResetTown (env : ResetEnv) (formulaName : List Char) :
    ResetOutcome × (List Char → Bool) :=
  let filename := formulaName ++ ".formula.toml".toList
  let targetPath := overridePathIn env.townRoot filename
  if env.rigDirs.any (fun rigDir => env.fileExists (overridePathIn rigDir filename))
      ∧ env.fileExists targetPath then
    (.errBothExist, env.fileExists)
  else if ¬ env.fileExists targetPath then
    (.errNoOverride, env.fileExists)
  else
    (.removed, fun p => if p == targetPath then false else env.fileExists p)

/-! ## Update (`runFormulaUpdate`) -/

/-- The externally visible actions of Go `runFormulaUpdate`, in order. -/
inductive UpdateEffect where
  | invokeAgent
  | writeBackup
  | writeOverride
deriving DecidableEq, Repr

/-- The outcomes of Go `runFormulaUpdate`. -/
inductive UpdateOutcome where
  | errNotEmbedded
  | errNoOverride
  | noUpdateNeeded
  | errAgentDetect
  | errAgentFailed
  | errEmptyOutput
  | applied
  | proposed
deriving DecidableEq, Repr

/-- Go `FormulaOverride` (the fields `runFormulaUpdate` consults). -/
structure FormulaOverride where
  Name : List Char
  Path : List Char
  Level : List Char
deriving DecidableEq, Repr

/-- The inputs Go `runFormulaUpdate` reads: whether the name is embedded, the
discovered overrides, the override's recorded base hash
(`formula.ExtractBaseHash`, empty when absent), the current embedded hash
(`formula.GetEmbeddedFormulaHash`), whether an agent was detected, the
agent's captured stdout (`none` when the invocation fails), and the
`--apply` flag. -/
structure UpdateEnv where
  embeddedExists : Bool
  overrides : List FormulaOverride
  baseHash : List Char
  currentHash : List Char
  agentFound : Bool
  agentOutput : Option (List Char)
  applyFlag : Bool

/-- The override Go `runFormulaUpdate` picks: the first rig-level one when
present, else the first discovered. -/
def pickOverride (overrides : List FormulaOverride) : Option FormulaOverride :=
  match overrides with
  | [] => none
  | o :: _ => some ((overrides.find? (fun ov => ov.Level == "rig".toList)).getD o)

/-- Go `runFormulaUpdate`: fail when the name is not embedded or has no
override; report "no update needed" and stop when the recorded base hash is
present and equals the current embedded hash; otherwise detect the agent,
invoke it, and on non-empty output either print the proposal or (with
`--apply`) write a backup and the merged override.  Paired with the list of
externally visible actions taken. -/
def runFormulaUpdate (env : UpdateEnv) : UpdateOutcome × List UpdateEffect :=
  if ¬ env.embeddedExists then (.errNotEmbedded, [])
  else
    match pickOverride env.overrides with
    | none => (.errNoOverride, [])
    | some _ =>
      if env.baseHash ≠ [] ∧ env.baseHash = env.currentHash then
        (.noUpdateNeeded, [])
      else if ¬ env.agentFound then (.errAgentDetect, [])
      else
        match env.agentOutput with
        | none => (.errAgentFailed, [.invokeAgent])
        | some out =>
          if trimSpace out = [] then (.errEmptyOutput, [.invokeAgent])
          else if env.applyFlag then
            (.applied, [.invokeAgent, .writeBackup, .writeOverride])
          else (.proposed, [.invokeAgent])

/-! ## Short id generator (`generateFormulaShortID`) -/

/-- The RFC 4648 base-32 alphabet used by Go `base32.StdEncoding`. -/
def base32Alphabet : List Char := "ABCDEFGHIJKLMNOPQRSTUVWXYZ234567".toList

/-- Modelled from the Go standard library: `base32.StdEncoding.EncodeToString`
on exactly 3 input bytes — five 5-bit groups (the last padded with a zero
bit) mapped through the alphabet, followed by three `=` padding characters. -/
def base32EncodeTriple (b0 b1 b2 : Fin 256) : List Char :=
  [base32Alphabet.getD (b0.val / 8) 'A',
   base32Alphabet.getD ((b0.val % 8) * 4 + b1.val / 64) 'A',
   base32Alphabet.getD ((b1.val / 2) % 32) 'A',
   base32Alphabet.getD ((b1.val % 2) * 16 + b2.val / 16) 'A',
   base32Alphabet.getD ((b2.val % 16) * 2) 'A'] ++ ['=', '=', '=']

/-- Go `strings.ToLower` on one ASCII character. -/
def asciiToLower (c : Char) : Char :=
  if 'A' ≤ c ∧ c ≤ 'Z' then Char.ofNat (c.toNat + 32) else c

/-- Go `generateFormulaShortID` as a function of the 3 random bytes read from
`crypto/rand`: base-32 encode, truncate to 5 characters, lowercase. -/
def generateFormulaShortID (b0 b1 b2 : Fin 256) : List Char :=
  ((base32EncodeTriple b0 b1 b2).take 5).map asciiToLower

/-- `generateFormulaShortID` on a packed triple, for counting its image. -/
def generateFormulaShortIDt (b : Fin 256 × Fin 256 × Fin 256) : List Char :=
  generateFormulaShortID b.1 b.2.1 b.2.2

/-- The lowercase base-32 alphabet the ids draw from. -/
def lowerBase32Alphabet : List Char := "abcdefghijklmnopqrstuvwxyz234567".toList

/-! ## C3: the parser is total and defaults absent fields -/

/-- C3: `parseFormulaContent` returns a document and a nil error on every
input byte sequence; when a marker or key is absent (its `strings.Split`
yields a single piece, i.e. no occurrence, or the key scan yields the empty
string) the corresponding field keeps its default value. -/
theorem parseFormulaContent_total_defaults (data : List Char) :
    parseFormulaContent data = .ok (parseFormulaDoc data) ∧
    ((splitOnL "[[legs]]".toList data).length = 1 → (parseFormulaDoc data).Legs = []) ∧
    ((splitOnL "[synthesis]".toList data).length = 1 →
      (parseFormulaDoc data).Synthesis = none) ∧
    ((splitOnL "[prompts]".toList data).length = 1 →
      (parseFormulaDoc data).PromptsBase = none) ∧
    ((splitOnL "[output]".toList data).length = 1 → (parseFormulaDoc data).Output = none) ∧
    (extractTOMLValue data "formula".toList = [] → (parseFormulaDoc data).Name = []) ∧
    (extractTOMLValue data "type".toList = [] → (parseFormulaDoc data).FType = []) := by
  refine ⟨rfl, ?_, ?_, ?_, ?_, fun h => h, fun h => h⟩
  · intro h
    obtain ⟨x, hx⟩ := List.length_eq_one.mp h
    show extractLegs data = []
    unfold extractLegs
    rw [hx]
    rfl
  · intro h
    obtain ⟨x, hx⟩ := List.length_eq_one.mp h
    show extractSynthesis data = none
    unfold extractSynthesis boundedSection
    rw [hx]
  · intro h
    obtain ⟨x, hx⟩ := List.length_eq_one.mp h
    show extractPrompts data = none
    unfold extractPrompts boundedSection
    rw [hx]
  · intro h
    obtain ⟨x, hx⟩ := List.length_eq_one.mp h
    show extractOutput data = none
    unfold extractOutput boundedSection
    rw [hx]

/-! ## C4: parsed legs always carry a non-empty id -/

/-- C4: every leg block whose extracted `id` field is empty is excluded from
the parsed legs sequence, whatever its other fields hold: every member of
`extractLegs content` has a non-empty id. -/
theorem extractLegs_nonempty_id (content : List Char) (leg : formulaLeg)
    (h : leg ∈ extractLegs content) : leg.ID ≠ [] := by
  unfold extractLegs at h
  rcases List.mem_filterMap.mp h with ⟨sec, -, hsec⟩
  dsimp only at hsec
  split at hsec
  · cases hsec
    assumption
  · cases hsec

/-- C4 witness: on a concrete document with one well-formed leg block, the
parsed leg exists and the theorem yields its non-empty id. -/
theorem extractLegs_nonempty_id_witness :
    ∃ leg ∈ extractLegs "[[legs]]\nid = \"a\"\ntitle = \"T\"".toList, leg.ID ≠ [] := by
  have hm : (⟨"a".toList, "T".toList, [], []⟩ : formulaLeg) ∈
      extractLegs "[[legs]]\nid = \"a\"\ntitle = \"T\"".toList := by decide
  exact ⟨_, hm, extractLegs_nonempty_id _ _ hm⟩

/-! ## C5: convoy title truncation -/

/-- C5: when the composed convoy title `<formula-name>: <description>` is
longer than 80 characters the title used is exactly 80 characters and ends
with the 3-character `...` marker; otherwise it is used unchanged. -/
theorem convoyTitle_spec (formulaName desc : List Char) :
    (80 < (formulaName ++ ": ".toList ++ desc).length →
      (convoyTitle formulaName desc).length = 80 ∧
        "...".toList <:+ convoyTitle formulaName desc) ∧
    ((formulaName ++ ": ".toList ++ desc).length ≤ 80 →
      convoyTitle formulaName desc = formulaName ++ ": ".toList ++ desc) := by
  constructor
  · intro h
    unfold convoyTitle
    rw [if_pos h]
    refine ⟨?_, List.suffix_append _ _⟩
    have h3 : ("...".toList).length = 3 := rfl
    have ht : (List.take 77 (formulaName ++ ": ".toList ++ desc)).length = 77 := by
      rw [List.length_take]
      omega
    simp only [List.length_append, ht, h3]
  · intro h
    unfold convoyTitle
    rw [if_neg (by omega)]

/-! ## C10: a synthesis with empty title and description is dropped -/

/-- C10: a `[synthesis]` section whose extracted `title` and `description`
are both empty yields an absent synthesis, even when its `depends_on` list is
non-empty — the declared ids are discarded. -/
theorem extractSynthesis_empty_title_desc (content sec : List Char)
    (hsec : boundedSection "[synthesis]".toList content = some sec)
    (ht : extractTOMLValue sec "title".toList = [])
    (hd : extractTOMLMultiline sec "description".toList = []) :
    extractSynthesis content = none := by
  unfold extractSynthesis
  rw [hsec]
  dsimp only
  rw [if_pos ⟨ht, hd⟩]

/-- C10 witness: on a concrete `[synthesis]` section holding only a two-entry
`depends_on` list, the parsed synthesis is absent. -/
theorem extractSynthesis_empty_title_desc_witness :
    extractSynthesis "[synthesis]\ndepends_on = [\"a\", \"b\"]\n".toList = none :=
  extractSynthesis_empty_title_desc
    "[synthesis]\ndepends_on = [\"a\", \"b\"]\n".toList
    "[synthesis]\ndepends_on = [\"a\", \"b\"]\n".toList
    (by decide) (by decide) (by decide)

/-! ## C1: resolution precedence -/

/-- C1: resolution prefers filesystem tiers over the built-in set.  When a
candidate file for the name exists in a searched tier directory (with either
recognized extension) the result is a file-sourced location at one of the
existing candidate paths — never the embedded source; when no candidate
exists and the name is embedded, the result is an embedded location whose
path is the bare formula name. -/
theorem findFormulaWithSource_spec (env : ResolveEnv) (name : List Char) :
    ((∃ p ∈ formulaCandidates env name, env.fileExists p = true) →
      ∃ p ∈ formulaCandidates env name, env.fileExists p = true ∧
        findFormulaWithSource env name = .ok { Path := p, Source := .file }) ∧
    ((∀ p ∈ formulaCandidates env name, env.fileExists p = false) →
      name ∈ env.embeddedNames →
      findFormulaWithSource env name = .ok { Path := name, Source := .embedded }) := by
  constructor
  · rintro ⟨p, hp, hex⟩
    unfold findFormulaWithSource
    cases hfind : (formulaCandidates env name).find? env.fileExists with
    | none =>
      have := List.find?_eq_none.mp hfind p hp
      rw [hex] at this
      exact absurd rfl this
    | some q =>
      exact ⟨q, List.mem_of_find?_eq_some hfind, List.find?_some hfind, rfl⟩
  · intro hall hemb
    unfold findFormulaWithSource
    rw [List.find?_eq_none.mpr fun x hx => by rw [hall x hx]; exact Bool.false_ne_true,
      if_pos hemb]

/-- C1 witness: a concrete environment where the rig-tier `.toml` candidate
for `foo` exists and `foo` is also embedded resolves to the file. -/
theorem findFormulaWithSource_spec_witness :
    ∃ p ∈ formulaCandidates
        { cwd := some "/w".toList, townRoot := none,
          fileExists := fun q => q == "/w/.beads/formulas/foo.formula.toml".toList,
          embeddedNames := ["foo".toList] } "foo".toList,
      (fun q => q == "/w/.beads/formulas/foo.formula.toml".toList) p = true ∧
        findFormulaWithSource
          { cwd := some "/w".toList, townRoot := none,
            fileExists := fun q => q == "/w/.beads/formulas/foo.formula.toml".toList,
            embeddedNames := ["foo".toList] } "foo".toList =
          .ok { Path := p, Source := .file } :=
  (findFormulaWithSource_spec _ _).1
    ⟨"/w/.beads/formulas/foo.formula.toml".toList, by decide, by decide⟩

/-! ## C6: the update hash gate -/

/-- C6: with an embedded formula and a discovered override, when the recorded
base hash is present and equals the current embedded hash the update reports
"no update needed" and stops — no agent invocation, no file written; when
the recorded hash is present and differs, the merge path is taken (the
outcome is never "no update needed", and the agent is invoked whenever one
is detected). -/
theorem runFormulaUpdate_hash_gate (env : UpdateEnv)
    (hemb : env.embeddedExists = true)
    (hovr : env.overrides ≠ [])
    (hbase : env.baseHash ≠ []) :
    (env.baseHash = env.currentHash →
      runFormulaUpdate env = (.noUpdateNeeded, [])) ∧
    (env.baseHash ≠ env.currentHash →
      (runFormulaUpdate env).1 ≠ .noUpdateNeeded ∧
        (env.agentFound = true → .invokeAgent ∈ (runFormulaUpdate env).2)) := by
  obtain ⟨o, os, ho⟩ : ∃ o os, env.overrides = o :: os := by
    cases hos : env.overrides with
    | nil => exact absurd hos hovr
    | cons o os => exact ⟨o, os, rfl⟩
  constructor
  · intro heq
    unfold runFormulaUpdate pickOverride
    rw [hemb, ho]
    rw [if_neg (by simp)]
    dsimp only
    rw [if_pos ⟨hbase, heq⟩]
  · intro hne
    have hcond : ¬ (env.baseHash ≠ [] ∧ env.baseHash = env.currentHash) := fun h => hne h.2
    unfold runFormulaUpdate pickOverride
    rw [hemb, ho]
    rw [if_neg (by simp)]
    dsimp only
    rw [if_neg hcond]
    constructor
    · split
      · simp
      · cases env.agentOutput with
        | none => simp
        | some out =>
          dsimp only
          split
          · simp
          · split
            · simp
            · simp
    · intro hagent
      rw [if_neg (by simp [hagent])]
      cases env.agentOutput with
      | none => simp
      | some out =>
        dsimp only
        split
        · simp
        · split
          · simp
          · simp

/-- C6 witness: a concrete environment whose recorded base hash equals the
current embedded hash reports "no update needed" with no effects. -/
theorem runFormulaUpdate_hash_gate_witness :
    runFormulaUpdate
      { embeddedExists := true,
        overrides := [{ Name := "n".toList, Path := "p".toList, Level := "town".toList }],
        baseHash := "h".toList, currentHash := "h".toList,
        agentFound := true, agentOutput := some "x".toList, applyFlag := false } =
      (.noUpdateNeeded, []) :=
  (runFormulaUpdate_hash_gate _ (by decide) (by decide) (by decide)).1 (by decide)

/-! ## C7: reset refuses when both tiers hold an override -/

/-- C7: reset without an explicit tier, when the town-level override and some
rig-level override both exist, fails with the disambiguation error and the
filesystem is returned unchanged — neither override file is deleted. -/
theorem runFormulaResetTown_both_exist (env : ResetEnv) (name : List Char)
    (htown : env.fileExists
      (overridePathIn env.townRoot (name ++ ".formula.toml".toList)) = true)
    (hrig : ∃ rigDir ∈ env.rigDirs,
      env.fileExists (overridePathIn rigDir (name ++ ".formula.toml".toList)) = true) :
    runFormulaResetTown env name = (.errBothExist, env.fileExists) := by
  unfold runFormulaResetTown
  have hany : env.rigDirs.any
      (fun rigDir => env.fileExists
        (overridePathIn rigDir (name ++ ".formula.toml".toList))) = true :=
    List.any_eq_true.mpr hrig
  rw [if_pos ⟨hany, htown⟩]

/-- C7 witness: a concrete town with one rig, both holding an override for
`x`; the reset refuses and the filesystem function is returned untouched. -/
theorem runFormulaResetTown_both_exist_witness :
    runFormulaResetTown
      { townRoot := "/t".toList, rigDirs := ["/t/r".toList],
        fileExists := fun p =>
          p == "/t/.beads/formulas/x.formula.toml".toList ||
          p == "/t/r/.beads/formulas/x.formula.toml".toList }
      "x".toList =
      (.errBothExist, fun p =>
        p == "/t/.beads/formulas/x.formula.toml".toList ||
        p == "/t/r/.beads/formulas/x.formula.toml".toList) :=
  runFormulaResetTown_both_exist _ _ (by decide)
    ⟨"/t/r".toList, by decide, by decide⟩

/-! ## C8: the positional line comparator -/

/-- The per-index rule `findLineDifferences` actually satisfies (the amended
C8): lines are compared index-for-index; a pair equal after trimming
(including jointly blank) yields nothing; an index past the left end yields
an `added` difference carrying the right line unless that line is blank
after trimming (then it is skipped); symmetrically past the right end for
`removed`; two existing lines differing after trimming yield `changed`. -/
def lineDiffAt (left right : List (List Char)) (i : Nat) : Option LineDiff :=
  if left.length ≤ i then
    if trimSpace (lineAtD right i) = [] then none
    else some ⟨.added, [], lineAtD right i⟩
  else if right.length ≤ i then
    if trimSpace (lineAtD left i) = [] then none
    else some ⟨.removed, lineAtD left i, []⟩
  else if trimSpace (lineAtD left i) = trimSpace (lineAtD right i) then none
  else some ⟨.changed, lineAtD left i, lineAtD right i⟩

/-- The per-index rule C8 states literally: an index past the end of one
side always produces an `added`/`removed` difference carrying the other
side's line. -/
def lineDiffClaimedAt (left right : List (List Char)) (i : Nat) : Option LineDiff :=
  if left.length ≤ i then some ⟨.added, [], lineAtD right i⟩
  else if right.length ≤ i then some ⟨.removed, lineAtD left i, []⟩
  else if trimSpace (lineAtD left i) = trimSpace (lineAtD right i) then none
  else some ⟨.changed, lineAtD left i, lineAtD right i⟩

/-- `trimSpace` of the empty string. -/
lemma trimSpace_nil : trimSpace [] = [] := rfl

/-- A line past the end of its side is the empty string. -/
lemma lineAtD_of_le (xs : List (List Char)) (i : Nat) (h : xs.length ≤ i) :
    lineAtD xs i = [] := List.getD_eq_default _ _ h

/-- One iteration of the `findLineDifferences` loop appends exactly what
`lineDiffAt` produces at that index. -/
lemma findLineDifferences_step (left right : List (List Char)) (acc : List LineDiff)
    (i : Nat) :
    (if trimSpace (lineAtD left i) = trimSpace (lineAtD right i) then acc
     else if trimSpace (lineAtD left i) = [] ∧ trimSpace (lineAtD right i) = [] then acc
     else if left.length ≤ i then acc ++ [⟨.added, [], lineAtD right i⟩]
     else if right.length ≤ i then acc ++ [⟨.removed, lineAtD left i, []⟩]
     else acc ++ [⟨.changed, lineAtD left i, lineAtD right i⟩]) =
      acc ++ (lineDiffAt left right i).toList := by
  by_cases hL : left.length ≤ i
  · have hl : lineAtD left i = [] := lineAtD_of_le _ _ hL
    by_cases hr : trimSpace (lineAtD right i) = []
    · simp [lineDiffAt, hL, hl, hr, trimSpace_nil]
    · have hne : ¬ trimSpace ([] : List Char) = trimSpace (lineAtD right i) :=
        fun h => hr (h.symm.trans trimSpace_nil)
      simp [lineDiffAt, hL, hl, hr, trimSpace_nil, hne]
  · by_cases hR : right.length ≤ i
    · have hr : lineAtD right i = [] := lineAtD_of_le _ _ hR
      by_cases hlr : trimSpace (lineAtD left i) = []
      · simp [lineDiffAt, hL, hR, hr, hlr, trimSpace_nil]
      · have hne : ¬ trimSpace (lineAtD left i) = trimSpace ([] : List Char) :=
          fun h => hlr (h.trans trimSpace_nil)
        simp [lineDiffAt, hL, hR, hr, hlr, trimSpace_nil, hne]
    · by_cases heq : trimSpace (lineAtD left i) = trimSpace (lineAtD right i)
      · simp [lineDiffAt, hL, hR, heq]
      · have hc : ¬ (trimSpace (lineAtD left i) = [] ∧ trimSpace (lineAtD right i) = []) :=
          fun hc => heq (hc.1.trans hc.2.symm)
        simp [lineDiffAt, hL, hR, heq, hc]

/-- Folding an append-an-option step over a list is a `filterMap`. -/
lemma foldl_append_toList {α : Type} (g : Nat → Option α) :
    ∀ (idxs : List Nat) (acc : List α),
      idxs.foldl (fun a i => a ++ (g i).toList) acc = acc ++ idxs.filterMap g := by
  intro idxs
  induction idxs with
  | nil => intro acc; simp
  | cons i idxs ih =>
    intro acc
    rw [List.foldl_cons, ih, List.filterMap_cons]
    cases g i <;> simp

/-- C8 (amended): `findLineDifferences` produces, index by index over
`0 ..= max len - 1`, exactly the differences described by `lineDiffAt`:
trim-equal pairs are skipped, an index past the left end yields `added`
carrying the right line unless that line is blank after trimming (it is then
skipped, diverging from the claim as stated), symmetrically `removed`, and
existing lines differing after trimming yield `changed`. -/
theorem findLineDifferences_spec (left right : List (List Char)) :
    findLineDifferences left right =
      (List.range (max left.length right.length)).filterMap (lineDiffAt left right) := by
  unfold findLineDifferences
  have hstep : (fun (diffs : List LineDiff) (i : Nat) =>
      if trimSpace (lineAtD left i) = trimSpace (lineAtD right i) then diffs
      else if trimSpace (lineAtD left i) = [] ∧ trimSpace (lineAtD right i) = [] then diffs
      else if left.length ≤ i then diffs ++ [⟨.added, [], lineAtD right i⟩]
      else if right.length ≤ i then diffs ++ [⟨.removed, lineAtD left i, []⟩]
      else diffs ++ [⟨.changed, lineAtD left i, lineAtD right i⟩]) =
      fun acc i => acc ++ (lineDiffAt left right i).toList :=
    funext fun acc => funext fun i => findLineDifferences_step left right acc i
  rw [hstep, foldl_append_toList]
  simp

/-- C8 counterexample: with `left = []` and `right = [" "]` the code reports
no differences, while the claim's literal per-index rule demands one `added`
difference carrying the blank right line. -/
theorem findLineDifferences_claim_counterexample :
    findLineDifferences [] [[' ']] = [] ∧
    (List.range (max (List.length ([] : List (List Char))) [[' ']].length)).filterMap
        (lineDiffClaimedAt [] [[' ']]) =
      [⟨.added, [], [' ']⟩] := by
  constructor
  · rfl
  · rfl

/-! ## C2: synthesis dependency edges -/

/-- Inserting a key absent from the map appends the binding. -/
lemma mapUpsert_not_mem (m : List (List Char × List Char)) (k v : List Char)
    (h : ∀ kv ∈ m, kv.1 ≠ k) : mapUpsert m k v = m ++ [(k, v)] := by
  have hany : m.any (fun kv => kv.1 == k) = false := by
    rw [List.any_eq_false]
    intro kv hkv
    simpa using h kv hkv
  unfold mapUpsert
  rw [hany]
  simp

/-- Folding the leg-creation loop from a map whose keys avoid the remaining
(pairwise distinct) leg ids appends one binding per successful creation. -/
lemma foldl_upsert_eq (legOk : Nat → Bool) (legBeadId : Nat → List Char) :
    ∀ (ps : List (Nat × formulaLeg)) (m : List (List Char × List Char)),
      (∀ p ∈ ps, ∀ kv ∈ m, kv.1 ≠ p.2.ID) →
      (ps.map fun p => p.2.ID).Nodup →
      ps.foldl
          (fun acc p => if legOk p.1 then mapUpsert acc p.2.ID (legBeadId p.1) else acc)
          m =
        m ++ ps.filterMap fun p =>
          if legOk p.1 then some (p.2.ID, legBeadId p.1) else none := by
  intro ps
  induction ps with
  | nil =>
    intro m _ _
    simp
  | cons p ps ih =>
    intro m hdisj hnodup
    have hnodup' : (ps.map fun q => q.2.ID).Nodup :=
      (List.nodup_cons.mp (by simpa using hnodup)).2
    have hnotin : p.2.ID ∉ ps.map fun q => q.2.ID :=
      (List.nodup_cons.mp (by simpa using hnodup)).1
    rw [List.foldl_cons, List.filterMap_cons]
    by_cases hok : legOk p.1 = true
    · rw [if_pos hok, if_pos hok,
        mapUpsert_not_mem _ _ _ (fun kv hkv => hdisj p (List.mem_cons_self _ _) kv hkv),
        ih (m ++ [(p.2.ID, legBeadId p.1)]) ?_ hnodup']
      · simp
      · intro q hq kv hkv
        rcases List.mem_append.mp hkv with hkv | hkv
        · exact hdisj q (List.mem_cons_of_mem _ hq) kv hkv
        · have hkv1 : kv.1 = p.2.ID := by
            simp only [List.mem_singleton] at hkv
            rw [hkv]
          rw [hkv1]
          intro hcontra
          exact hnotin (hcontra ▸ List.mem_map_of_mem (fun r => r.2.ID) hq)
    · rw [if_neg hok, if_neg hok]
      exact ih m (fun q hq => hdisj q (List.mem_cons_of_mem _ hq)) hnodup'

/-- With pairwise-distinct leg ids, the values of the `legBeads` map are
exactly the bead ids of the successfully created legs, in creation order. -/
lemma legBeadsAfter_values (legs : List formulaLeg) (legOk : Nat → Bool)
    (legBeadId : Nat → List Char) (hnodup : (legs.map formulaLeg.ID).Nodup) :
    (legBeadsAfter legs legOk legBeadId).map Prod.snd =
      successfulLegBeadIds legs legOk legBeadId := by
  have henum : legs.enum.map (fun p => p.2.ID) = legs.map formulaLeg.ID := by
    rw [show (fun p : Nat × formulaLeg => p.2.ID) = (formulaLeg.ID ∘ Prod.snd) from rfl,
      ← List.map_map, List.enum_map_snd]
  unfold legBeadsAfter successfulLegBeadIds
  rw [foldl_upsert_eq legOk legBeadId legs.enum [] (by simp) (henum ▸ hnodup),
    List.nil_append, List.map_filterMap]
  have hfun : (fun p : Nat × formulaLeg =>
      (if legOk p.1 then some (p.2.ID, legBeadId p.1) else none).map Prod.snd) =
      fun p : Nat × formulaLeg => if legOk p.1 then some (legBeadId p.1) else none := by
    funext p
    by_cases hok : legOk p.1 = true <;> simp [hok]
  rw [hfun]

/-- C2 (amended with pairwise-distinct leg ids): when the document declares a
synthesis and its record creation succeeds, the dependency edges added from
the synthesis record target exactly the bead ids of the successfully created
leg records — and the result is the same whatever the declared `depends_on`
list holds. -/
theorem synthesisDepTargets_eq_created (f : formulaData) (syn : formulaSynthesis)
    (legOk : Nat → Bool) (legBeadId : Nat → List Char)
    (hsyn : f.Synthesis = some syn)
    (hnodup : (f.Legs.map formulaLeg.ID).Nodup) :
    synthesisDepTargets f legOk legBeadId true =
      successfulLegBeadIds f.Legs legOk legBeadId ∧
    ∀ dOn : List (List Char),
      synthesisDepTargets
          { f with Synthesis := some { syn with DependsOn := dOn } } legOk legBeadId true =
        successfulLegBeadIds f.Legs legOk legBeadId := by
  constructor
  · unfold synthesisDepTargets
    rw [hsyn]
    dsimp only
    rw [if_pos rfl]
    exact legBeadsAfter_values f.Legs legOk legBeadId hnodup
  · intro dOn
    unfold synthesisDepTargets
    dsimp only
    rw [if_pos rfl]
    exact legBeadsAfter_values f.Legs legOk legBeadId hnodup

/-- C2 witness: a convoy with legs `a` and `b` where only leg 0's creation
succeeds and the synthesis declares `depends_on = ["zz"]`: the edge set is
exactly the one successfully created bead id. -/
theorem synthesisDepTargets_eq_created_witness :
    synthesisDepTargets
      { Name := [], Description := [], FType := "convoy".toList,
        Legs := [⟨"a".toList, [], [], []⟩, ⟨"b".toList, [], [], []⟩],
        Synthesis := some ⟨"s".toList, [], ["zz".toList]⟩,
        PromptsBase := none, Output := none }
      (fun i => i == 0) (fun i => if i == 0 then "L0".toList else "L1".toList) true =
      successfulLegBeadIds [⟨"a".toList, [], [], []⟩, ⟨"b".toList, [], [], []⟩]
        (fun i => i == 0) (fun i => if i == 0 then "L0".toList else "L1".toList) :=
  (synthesisDepTargets_eq_created _ ⟨"s".toList, [], ["zz".toList]⟩ _ _ rfl (by decide)).1

/-- C2 counterexample: two legs sharing the id `a`, both record creations
succeeding: two leg records are created (`L0`, `L1`) but the synthesis gains
a single dependency edge, to `L1` only — the edge set is not the set of
successfully created leg records. -/
theorem synthesisDepTargets_counterexample :
    synthesisDepTargets
      { Name := [], Description := [], FType := "convoy".toList,
        Legs := [⟨"a".toList, [], [], []⟩, ⟨"a".toList, [], [], []⟩],
        Synthesis := some ⟨"s".toList, [], []⟩, PromptsBase := none, Output := none }
      (fun _ => true) (fun i => if i == 0 then "L0".toList else "L1".toList) true =
      ["L1".toList] ∧
    successfulLegBeadIds [⟨"a".toList, [], [], []⟩, ⟨"a".toList, [], [], []⟩]
      (fun _ => true) (fun i => if i == 0 then "L0".toList else "L1".toList) =
      ["L0".toList, "L1".toList] := by
  exact ⟨rfl, rfl⟩

/-! ## C9: the short id generator -/

/-- `generateFormulaShortID` written out: the five data characters of the
base-32 encoding, lowercased (the `[:5]` truncation drops only the three
`=` padding characters). -/
lemma generateFormulaShortID_eq (b0 b1 b2 : Fin 256) :
    generateFormulaShortID b0 b1 b2 =
      [asciiToLower (base32Alphabet.getD (b0.val / 8) 'A'),
       asciiToLower (base32Alphabet.getD ((b0.val % 8) * 4 + b1.val / 64) 'A'),
       asciiToLower (base32Alphabet.getD ((b1.val / 2) % 32) 'A'),
       asciiToLower (base32Alphabet.getD ((b1.val % 2) * 16 + b2.val / 16) 'A'),
       asciiToLower (base32Alphabet.getD ((b2.val % 16) * 2) 'A')] := rfl

/-- Distinct 5-bit groups yield distinct lowercased alphabet characters. -/
lemma base32_lower_char_inj : ∀ i j : Fin 32,
    asciiToLower (base32Alphabet.getD i.val 'A') =
      asciiToLower (base32Alphabet.getD j.val 'A') → i = j := by decide

/-- Every lowercased alphabet character lies in the lowercase alphabet. -/
lemma base32_lower_char_mem : ∀ i : Fin 32,
    asciiToLower (base32Alphabet.getD i.val 'A') ∈ lowerBase32Alphabet := by decide

/-- The generator is injective on the 2^24 possible 3-byte inputs: the five
kept characters encode all 24 random bits. -/
lemma generateFormulaShortIDt_injective : Function.Injective generateFormulaShortIDt := by
  rintro ⟨a, b, c⟩ ⟨x, y, z⟩ h
  simp only [generateFormulaShortIDt] at h
  rw [generateFormulaShortID_eq, generateFormulaShortID_eq] at h
  simp only [List.cons.injEq, and_true] at h
  obtain ⟨h0, h1, h2, h3, h4⟩ := h
  have e0 : a.val / 8 = x.val / 8 := by
    have := base32_lower_char_inj ⟨a.val / 8, by omega⟩ ⟨x.val / 8, by omega⟩ h0
    simpa [Fin.ext_iff] using this
  have e1 : (a.val % 8) * 4 + b.val / 64 = (x.val % 8) * 4 + y.val / 64 := by
    have := base32_lower_char_inj ⟨(a.val % 8) * 4 + b.val / 64, by omega⟩
      ⟨(x.val % 8) * 4 + y.val / 64, by omega⟩ h1
    simpa [Fin.ext_iff] using this
  have e2 : (b.val / 2) % 32 = (y.val / 2) % 32 := by
    have := base32_lower_char_inj ⟨(b.val / 2) % 32, by omega⟩
      ⟨(y.val / 2) % 32, by omega⟩ h2
    simpa [Fin.ext_iff] using this
  have e3 : (b.val % 2) * 16 + c.val / 16 = (y.val % 2) * 16 + z.val / 16 := by
    have := base32_lower_char_inj ⟨(b.val % 2) * 16 + c.val / 16, by omega⟩
      ⟨(y.val % 2) * 16 + z.val / 16, by omega⟩ h3
    simpa [Fin.ext_iff] using this
  have e4 : (c.val % 16) * 2 = (z.val % 16) * 2 := by
    have := base32_lower_char_inj ⟨(c.val % 16) * 2, by omega⟩
      ⟨(z.val % 16) * 2, by omega⟩ h4
    simpa [Fin.ext_iff] using this
  have ha := a.isLt
  have hb := b.isLt
  have hc := c.isLt
  have hx := x.isLt
  have hy := y.isLt
  have hz := z.isLt
  have : a.val = x.val ∧ b.val = y.val ∧ c.val = z.val := by omega
  simp only [Prod.mk.injEq, Fin.ext_iff]
  exact ⟨this.1, this.2.1, this.2.2⟩

/-- The number of distinct ids the generator can produce over all 3-byte
inputs. -/
lemma card_image_generateFormulaShortIDt :
    (Finset.univ.image generateFormulaShortIDt).card = 2 ^ 24 := by
  rw [Finset.card_image_of_injective _ generateFormulaShortIDt_injective,
    Finset.card_univ, Fintype.card_prod, Fintype.card_prod, Fintype.card_fin]
  norm_num

/-- C9 (amended): the id is the base-32 encoding of 3 random bytes,
lowercased and truncated to exactly 5 characters, each drawn from the
lowercase base-32 alphabet; but the truncation drops only padding, the
generator is injective on byte triples, and the attainable id set has
exactly 2^24 distinct values (not approximately 2^15). -/
theorem generateFormulaShortID_spec (b0 b1 b2 : Fin 256) :
    (generateFormulaShortID b0 b1 b2).length = 5 ∧
    (∀ ch ∈ generateFormulaShortID b0 b1 b2, ch ∈ lowerBase32Alphabet) ∧
    (Finset.univ.image generateFormulaShortIDt).card = 2 ^ 24 := by
  refine ⟨rfl, ?_, card_image_generateFormulaShortIDt⟩
  intro ch hch
  rw [generateFormulaShortID_eq] at hch
  have hm := fun (n : Nat) (hn : n < 32) =>
    base32_lower_char_mem ⟨n, hn⟩
  have h0 := b0.isLt
  have h1 := b1.isLt
  have h2 := b2.isLt
  simp only [List.mem_cons, List.not_mem_nil, or_false] at hch
  rcases hch with h | h | h | h | h
  · rw [h]
    exact hm (b0.val / 8) (by omega)
  · rw [h]
    exact hm ((b0.val % 8) * 4 + b1.val / 64) (by omega)
  · rw [h]
    exact hm ((b1.val / 2) % 32) (by omega)
  · rw [h]
    exact hm ((b1.val % 2) * 16 + b2.val / 16) (by omega)
  · rw [h]
    exact hm ((b2.val % 16) * 2) (by omega)

/-- C9 counterexample: the attainable id set has 2^24 = 16777216 elements,
refuting the claimed "approximately 2^15 distinct values" (it exceeds even
2^16 by far). -/
theorem generateFormulaShortID_count_counterexample :
    (Finset.univ.image generateFormulaShortIDt).card = 2 ^ 24 ∧
      2 ^ 15 < (Finset.univ.image generateFormulaShortIDt).card := by
  rw [card_image_generateFormulaShortIDt]
  norm_num

end Gastown
